import Mathlib

/-!
Verification of the rainflayer brain controller against its specification.

This file gives a shallow embedding, in Lean 4, of the parts of the
repository that the specification's testable properties talk about:

* the action ledger and its event processing
  (`src/brain/brain_controller.py`: `_add_to_ledger`, `_process_event`,
  `_check_action_completion`),
* the user-directive lifecycle (`set_user_directive`, `_classify_directive`,
  `_is_directive_valid`),
* the socket bridge's query path (`src/brain/socket_bridge.py`:
  `send_query`), with its I/O effects made explicit,
* the decision provider's output parsing (`src/brain/model.py`:
  `_parse_json_output`, `generate_commands`), together with a model of
  Python's strict JSON parser and of the greedy regex extraction step.

Python machine state is passed explicitly: the ledger is a `List`, wall-clock
time is a parameter, and socket I/O is recorded as a trace of actions.
-/

namespace Rainflayer

/-- One entry of `self.action_ledger`: the dict
`{"command": ..., "status": ..., "reason": ...}` built by `_add_to_ledger`. -/
structure LedgerEntry where
  command : String
  status : String
  reason : String
deriving Repr, DecidableEq

/-- An event dict as seen by `_process_event`.  Python reads payload fields
with `event.get(key, default)`; a missing key is modelled as `""` for
`event_type` and `command` (whose defaults are `""`) and as `none` for the
fields whose defaults are other strings (`status` defaults to `"success"`,
`reason` to `"unknown"`, `target` and `distance` to `"?"`). -/
structure GameEvent where
  event_type : String := ""
  command : String := ""
  status : Option String := none
  reason : Option String := none
  target : Option String := none
  distance : Option String := none
deriving Repr, DecidableEq

/-- `self.max_ledger_entries = 10`. -/
def maxLedgerEntries : Nat := 10

/-- `_add_to_ledger`: append the new entry, then `pop(0)` when the length
exceeds `max_ledger_entries`. -/
def addToLedger (ledger : List LedgerEntry) (command status reason : String) :
    List LedgerEntry :=
  let l := ledger ++ [{ command := command, status := status, reason := reason }]
  if maxLedgerEntries < l.length then l.tail else l

/-- The `for action in self.action_ledger: if p(action): mutate; break`
pattern: rewrite the first entry satisfying `p` with `f`, returning `none`
when no entry matches (the loop fell through without `break`). -/
def updateFirst (p : LedgerEntry → Bool) (f : LedgerEntry → LedgerEntry) :
    List LedgerEntry → Option (List LedgerEntry)
  | [] => none
  | a :: rest =>
    if p a then some (f a :: rest)
    else (updateFirst p f rest).map (fun l => a :: l)

/-- The match predicate `a["command"] == command and a["status"] == "pending"`
used by the `action_started` and `action_failed` branches. -/
def isPendingFor (c : String) (a : LedgerEntry) : Bool :=
  a.command == c && a.status == "pending"

/-- The match predicate of the `action_complete` branch:
`a["command"] == command and a["status"] in ("pending", "interrupted")`. -/
def isOpenFor (c : String) (a : LedgerEntry) : Bool :=
  a.command == c && (a.status == "pending" || a.status == "interrupted")

/-- The reason string built in the `action_started` branch:
`f"found {target} at {distance}m"` with `.get` defaults `"?"`. -/
def startedReason (e : GameEvent) : String :=
  "found " ++ e.target.getD "?" ++ " at " ++ e.distance.getD "?" ++ "m"

/-- `leadsWith needle hay`: `needle` occurs at the very start of `hay`. -/
def leadsWith : List Char → List Char → Bool
  | [], _ => true
  | _ :: _, [] => false
  | n :: ns, h :: hs => n == h && leadsWith ns hs

/-- `occursIn needle hay`: `needle` occurs contiguously somewhere in `hay` —
the model of Python's `needle in hay` on strings. -/
def occursIn (needle : List Char) : List Char → Bool
  | [] => leadsWith needle []
  | h :: hs => leadsWith needle (h :: hs) || occursIn needle hs

/-- Python `sub in s` on strings. -/
def strContains (s sub : String) : Bool :=
  occursIn sub.data s.data

/-- Python `s.startswith(pre)`. -/
def strStarts (s pre : String) : Bool :=
  leadsWith pre.data s.data

/-- ASCII lowercasing of one character (the command and directive
vocabulary of the program is ASCII, where Python's `str.lower` agrees). -/
def charLower (c : Char) : Char :=
  if 65 ≤ c.toNat && c.toNat ≤ 90 then Char.ofNat (c.toNat + 32) else c

/-- Python `s.lower()`. -/
def lowerStr (s : String) : String :=
  String.mk (s.data.map charLower)

/-- Python `"teleporter" in command.lower()`. -/
def containsTeleporter (s : String) : Bool :=
  strContains (lowerStr s) "teleporter"

/-- `_process_event`: route one event dict into the action ledger.  Only the
ledger is read or written by the Python method (logging aside), so the
embedding maps a ledger to a ledger. -/
def processEvent (e : GameEvent) (ledger : List LedgerEntry) : List LedgerEntry :=
  if e.event_type = "" then ledger
  else if e.event_type = "action_started" then
    if e.command = "" then ledger
    else
      match updateFirst (isPendingFor e.command)
          (fun a => { a with reason := startedReason e }) ledger with
      | some l => l
      | none => addToLedger ledger e.command "pending" (startedReason e)
  else if e.event_type = "action_complete" then
    if e.command = "" then ledger
    else
      match updateFirst (isOpenFor e.command)
          (fun a => { a with status := e.status.getD "success", reason := "completed" })
          ledger with
      | some l => l
      | none => ledger
  else if e.event_type = "action_failed" then
    if e.command = "" then ledger
    else
      match updateFirst (isPendingFor e.command)
          (fun a => { a with status := "failed", reason := e.reason.getD "unknown" })
          ledger with
      | some l => l
      | none => addToLedger ledger e.command "failed" (e.reason.getD "unknown")
  else if e.event_type = "stuck" then
    ledger.map (fun a =>
      if a.status == "pending" &&
          (strStarts a.command "FIND_AND_INTERACT" || strStarts a.command "GOTO:") then
        { a with status := "failed", reason := "stuck" }
      else a)
  else if e.event_type = "combat_entered" then
    ledger.map (fun a =>
      if a.status == "pending" && strStarts a.command "FIND_AND_INTERACT" &&
          !containsTeleporter a.command then
        { a with status := "interrupted", reason := "combat" }
      else a)
  else ledger

/-- Fold `_process_event` over a drained event list, as the decision loop
does with `for event in self.bridge.poll_events(): self._process_event(event)`. -/
def processEvents (es : List GameEvent) (ledger : List LedgerEntry) : List LedgerEntry :=
  es.foldl (fun l e => processEvent e l) ledger

/-! ## Completion inference (`_check_action_completion`) -/

/-- Python `(i.type, i.name) in current_ids` membership on pairs of strings. -/
def pairMem (t : String × String) (l : List (String × String)) : Bool :=
  l.any (fun u => u.1 == t.1 && u.2 == t.2)

/-- The inner loop of the disappearance pass: every pending/interrupted entry
whose command starts with `"FIND_AND_INTERACT:" + inter_type` becomes a
success with reason `f"{inter_name} opened"`. -/
def markDisappeared (ty nm : String) (ledger : List LedgerEntry) : List LedgerEntry :=
  ledger.map (fun a =>
    if (a.status == "pending" || a.status == "interrupted") &&
        strStarts a.command ("FIND_AND_INTERACT:" ++ ty) then
      { a with status := "success", reason := nm ++ " opened" }
    else a)

/-- The boss-activation pass: every pending/interrupted entry whose command
mentions the teleporter becomes a success. -/
def markTeleporterSuccess (ledger : List LedgerEntry) : List LedgerEntry :=
  ledger.map (fun a =>
    if (a.status == "pending" || a.status == "interrupted") &&
        containsTeleporter a.command then
      { a with status := "success", reason := "teleporter activated (boss spawned)" }
    else a)

/-- The controller state read and written by `_check_action_completion`:
`self.last_seen_interactables` (a set of `(type, name)` pairs, modelled as a
list up to membership), `self._prev_boss_active`, and the action ledger. -/
structure InferState where
  lastSeen : List (String × String)
  prevBossActive : Bool
  ledger : List LedgerEntry
deriving Repr, DecidableEq

/-- `_check_action_completion(current_interactables)`, with the current
`(type, name)` pairs and `self.game_state.boss_active` passed explicitly.
`disappeared = self.last_seen_interactables - current_ids` is the set
difference; its Python iteration order is unspecified, so the embedding
iterates in `lastSeen` order (the claims below only use singleton sets,
where the order is irrelevant). -/
def checkActionCompletion (st : InferState) (current : List (String × String))
    (bossNow : Bool) : InferState :=
  let disappeared := st.lastSeen.filter (fun t => !pairMem t current)
  let led1 := disappeared.foldl (fun led t => markDisappeared t.1 t.2 led) st.ledger
  let led2 := if bossNow && !st.prevBossActive then markTeleporterSuccess led1 else led1
  { lastSeen := current, prevBossActive := bossNow, ledger := led2 }

/-! ## Directive lifecycle -/

/-- The directive-related fields of the controller.  `time.time()` values are
modelled as exact rationals (the claims compare whole-second elapsed times
against whole-second TTLs, where rounding plays no role). -/
structure DirectiveState where
  user_directive : Option String := none
  directive_timestamp : Option Rat := none
  directive_type : String := "strategic"
  directive_ttl : Rat := 600
deriving Repr, DecidableEq

/-- `_classify_directive`: tactical iff any keyword occurs in the lowered
directive text. -/
def tacticalKeywords : List String :=
  ["go to", "find", "use", "open", "interact", "buy",
   "teleporter", "chest", "shrine", "navigate", "get"]

def classifyDirective (directive : String) : String :=
  if tacticalKeywords.any (fun kw => strContains (lowerStr directive) kw) then "tactical"
  else "strategic"

/-- `set_user_directive`: overwrite all four directive fields; the timestamp
is the current time, the ttl is 45.0 for tactical and 600.0 otherwise. -/
def setUserDirective (directive : String) (now : Rat) : DirectiveState :=
  let ty := classifyDirective directive
  { user_directive := some directive,
    directive_timestamp := some now,
    directive_type := ty,
    directive_ttl := if ty = "tactical" then 45 else 600 }

/-- `_is_directive_valid`: false when either field is `None`, else
`(time.time() - self.directive_timestamp) < self.directive_ttl`. -/
def isDirectiveValid (s : DirectiveState) (now : Rat) : Bool :=
  match s.user_directive, s.directive_timestamp with
  | some _, some t0 => decide (now - t0 < s.directive_ttl)
  | _, _ => false

/-! ## Socket bridge query path (`send_query`) -/

/-- The connection fields of `SocketBridge` that `send_query` consults:
`self.connected` and whether `self.client_socket` is non-`None`. -/
structure BridgeState where
  connected : Bool
  hasClientSocket : Bool
deriving Repr, DecidableEq

/-- An observable I/O effect of `send_query`: a write of the serialized
query on the client socket, or a (blocking) read of the response queue. -/
inductive BridgeEffect where
  | socketWrite (queryType : String)
  | responseQueueRead
deriving Repr, DecidableEq

/-- What the environment does once the query is on the wire: `sendall` (or
the queue read) raises, the 5-second queue read times out (`queue.Empty`),
or a response message arrives. -/
inductive QueryOutcome where
  | sendError
  | timeoutEmpty
  | response (msg : String)
deriving Repr, DecidableEq

/-- `send_query`: fail fast with `None` when disconnected; otherwise write
the message, then block on the response queue, returning `None` on timeout
and clearing `connected` on an exception.  The returned triple is the new
bridge state, the Python return value, and the trace of I/O performed. -/
def sendQuery (st : BridgeState) (queryType : String) (outcome : QueryOutcome) :
    BridgeState × Option String × List BridgeEffect :=
  if st.connected && st.hasClientSocket then
    match outcome with
    | QueryOutcome.sendError =>
        ({ st with connected := false }, none, [BridgeEffect.socketWrite queryType])
    | QueryOutcome.timeoutEmpty =>
        (st, none, [BridgeEffect.socketWrite queryType, BridgeEffect.responseQueueRead])
    | QueryOutcome.response m =>
        (st, some m, [BridgeEffect.socketWrite queryType, BridgeEffect.responseQueueRead])
  else (st, none, [])

/-! ## Decision-provider output parsing (`model.py`)

`_parse_json_output` runs `json.loads` on the response text; on a decode
error it extracts with `re.search` of the regex "brace, dot-star, brace"
under `re.DOTALL` and retries; on total failure it uses an empty dict, and
`setdefault` fills the `commands` / `reasoning` keys.  We model JSON values,
a parser with Python's default `json.loads` behavior (it rejects trailing
data, control characters in strings, invalid escapes, and leading zeros,
but accepts the non-standard constants `NaN`, `Infinity` and `-Infinity`,
which Python turns into floats and this model keeps as numeric tokens
carrying their raw text — no claim inspects numeric values), and the
greedy regex match, which spans from the first opening brace to the last
closing brace of the whole text. -/

inductive JVal where
  | jnull
  | jbool (b : Bool)
  | jnum (raw : String)
  | jstr (s : String)
  | jarr (elems : List JVal)
  | jobj (fields : List (String × JVal))
deriving Repr

def skipWs : List Char → List Char
  | [] => []
  | c :: rest =>
    if c == ' ' || c == '\t' || c == '\n' || c == '\r' then skipWs rest else c :: rest

def hexDigitVal (c : Char) : Option Nat :=
  if 48 ≤ c.toNat && c.toNat ≤ 57 then some (c.toNat - 48)
  else if 97 ≤ c.toNat && c.toNat ≤ 102 then some (c.toNat - 97 + 10)
  else if 65 ≤ c.toNat && c.toNat ≤ 70 then some (c.toNat - 65 + 10)
  else none

def parseHex4 : List Char → Option (Nat × List Char)
  | a :: b :: c :: d :: rest =>
    match hexDigitVal a, hexDigitVal b, hexDigitVal c, hexDigitVal d with
    | some x, some y, some z, some w => some (((x * 16 + y) * 16 + z) * 16 + w, rest)
    | _, _, _, _ => none
  | _ => none

/-- Parse the body of a JSON string (the opening quote already consumed),
returning its characters and the remaining input.  Escapes follow the JSON
grammar as Python's `json.loads` reads them: a `u`-escape becomes the
character of its code point, and a high-surrogate escape immediately
followed by a low-surrogate escape combines into the astral code point.
Python keeps an *unpaired* surrogate escape as a lone surrogate inside the
`str`; a lone surrogate is not a Unicode scalar value, so it has no Lean
`Char` and degrades to NUL here — such a string differs from any ASCII key
or command in both models, so no claim below can observe the difference. -/
def parseStringBody : Nat → List Char → Option (List Char × List Char)
  | 0, _ => none
  | _, [] => none
  | fuel + 1, c :: rest =>
    if c == '"' then some ([], rest)
    else if c == '\\' then
      match rest with
      | [] => none
      | e :: rest2 =>
        let step : Option (Char × List Char) :=
          if e == '"' then some ('"', rest2)
          else if e == '\\' then some ('\\', rest2)
          else if e == '/' then some ('/', rest2)
          else if e == 'b' then some (Char.ofNat 8, rest2)
          else if e == 'f' then some (Char.ofNat 12, rest2)
          else if e == 'n' then some ('\n', rest2)
          else if e == 'r' then some ('\r', rest2)
          else if e == 't' then some ('\t', rest2)
          else if e == 'u' then
            match parseHex4 rest2 with
            | some (n, rest3) =>
              if 0xD800 ≤ n && n ≤ 0xDBFF then
                match rest3 with
                | '\\' :: 'u' :: rest4 =>
                  match parseHex4 rest4 with
                  | some (m, rest5) =>
                    if 0xDC00 ≤ m && m ≤ 0xDFFF then
                      some (Char.ofNat (0x10000 + (n - 0xD800) * 0x400 + (m - 0xDC00)),
                        rest5)
                    else some (Char.ofNat n, rest3)
                  | none => some (Char.ofNat n, rest3)
                | _ => some (Char.ofNat n, rest3)
              else some (Char.ofNat n, rest3)
            | none => none
          else none
        match step with
        | some (ch, rest3) =>
          match parseStringBody fuel rest3 with
          | some (cs, rest4) => some (ch :: cs, rest4)
          | none => none
        | none => none
    else if c.toNat < 32 then none
    else
      match parseStringBody fuel rest with
      | some (cs, rest4) => some (c :: cs, rest4)
      | none => none

def takeDigits : List Char → List Char × List Char
  | [] => ([], [])
  | c :: rest =>
    if c.isDigit then
      let p := takeDigits rest
      (c :: p.1, p.2)
    else ([], c :: rest)

/-- Optional fraction part: a dot followed by one or more digits. -/
def parseFracPart : List Char → Option (List Char × List Char)
  | '.' :: rest =>
    let p := takeDigits rest
    if p.1.isEmpty then none else some ('.' :: p.1, p.2)
  | s => some ([], s)

/-- Optional exponent part: `e`/`E`, an optional sign, one or more digits. -/
def parseExpPart : List Char → Option (List Char × List Char)
  | [] => some ([], [])
  | c :: rest =>
    if c == 'e' || c == 'E' then
      match rest with
      | [] => none
      | d :: rest2 =>
        if d == '+' || d == '-' then
          let p := takeDigits rest2
          if p.1.isEmpty then none else some (c :: d :: p.1, p.2)
        else
          let p := takeDigits rest
          if p.1.isEmpty then none else some (c :: p.1, p.2)
    else some ([], c :: rest)

/-- Parse a JSON number (strict grammar: optional minus, `0` or a nonzero
digit run, optional fraction, optional exponent), keeping its raw text. -/
def parseNumberChars (s : List Char) : Option (List Char × List Char) :=
  let signPart : List Char × List Char :=
    match s with
    | c :: rest => if c == '-' then ([c], rest) else ([], s)
    | [] => ([], [])
  let intPart : Option (List Char × List Char) :=
    match signPart.2 with
    | c :: rest =>
      if c == '0' then some ([c], rest)
      else if c.isDigit then some (takeDigits (c :: rest))
      else none
    | [] => none
  match intPart with
  | none => none
  | some (ip, s2) =>
    match parseFracPart s2 with
    | none => none
    | some (fp, s3) =>
      match parseExpPart s3 with
      | none => none
      | some (ep, s4) => some (signPart.1 ++ ip ++ fp ++ ep, s4)

/-- Python `dict` insertion while parsing an object: a repeated key keeps
its first position and takes the newest value. -/
def insertKey (k : String) (v : JVal) : List (String × JVal) → List (String × JVal)
  | [] => [(k, v)]
  | (k2, v2) :: rest => if k2 == k then (k2, v) :: rest else (k2, v2) :: insertKey k v rest

mutual

/-- Parse one JSON value from the input, returning it and the rest. -/
def parseValue : Nat → List Char → Option (JVal × List Char)
  | 0, _ => none
  | fuel + 1, s =>
    match skipWs s with
    | [] => none
    | c :: rest =>
      if c == 'n' then
        match rest with
        | 'u' :: 'l' :: 'l' :: r => some (JVal.jnull, r)
        | _ => none
      else if c == 't' then
        match rest with
        | 'r' :: 'u' :: 'e' :: r => some (JVal.jbool true, r)
        | _ => none
      else if c == 'f' then
        match rest with
        | 'a' :: 'l' :: 's' :: 'e' :: r => some (JVal.jbool false, r)
        | _ => none
      else if c == '"' then
        match parseStringBody (rest.length + 1) rest with
        | some (cs, r) => some (JVal.jstr (String.mk cs), r)
        | none => none
      else if c == 'N' then
        match rest with
        | 'a' :: 'N' :: r => some (JVal.jnum "NaN", r)
        | _ => none
      else if c == 'I' then
        match rest with
        | 'n' :: 'f' :: 'i' :: 'n' :: 'i' :: 't' :: 'y' :: r =>
          some (JVal.jnum "Infinity", r)
        | _ => none
      else if c == '\x7b' then parseObjFields fuel [] (skipWs rest) true
      else if c == '[' then parseArrElems fuel [] (skipWs rest) true
      else if c == '-' then
        match rest with
        | 'I' :: 'n' :: 'f' :: 'i' :: 'n' :: 'i' :: 't' :: 'y' :: r =>
          some (JVal.jnum "-Infinity", r)
        | _ =>
          match parseNumberChars (c :: rest) with
          | some (cs, r) => some (JVal.jnum (String.mk cs), r)
          | none => none
      else if c.isDigit then
        match parseNumberChars (c :: rest) with
        | some (cs, r) => some (JVal.jnum (String.mk cs), r)
        | none => none
      else none

/-- Parse the members of an object after its opening brace. -/
def parseObjFields : Nat → List (String × JVal) → List Char → Bool →
    Option (JVal × List Char)
  | 0, _, _, _ => none
  | fuel + 1, acc, s, first =>
    match s with
    | [] => none
    | c :: rest =>
      if first && c == '\x7d' then some (JVal.jobj acc, rest)
      else if c == '"' then
        match parseStringBody (rest.length + 1) rest with
        | none => none
        | some (kcs, r1) =>
          match skipWs r1 with
          | ':' :: r2 =>
            match parseValue fuel r2 with
            | none => none
            | some (v, r3) =>
              let acc2 := insertKey (String.mk kcs) v acc
              match skipWs r3 with
              | ',' :: r4 => parseObjFields fuel acc2 (skipWs r4) false
              | '\x7d' :: r4 => some (JVal.jobj acc2, r4)
              | _ => none
          | _ => none
      else none

/-- Parse the elements of an array after its opening bracket. -/
def parseArrElems : Nat → List JVal → List Char → Bool → Option (JVal × List Char)
  | 0, _, _, _ => none
  | fuel + 1, acc, s, first =>
    match s with
    | [] => none
    | c :: rest =>
      if first && c == ']' then some (JVal.jarr acc.reverse, rest)
      else
        match parseValue fuel (c :: rest) with
        | none => none
        | some (v, r1) =>
          match skipWs r1 with
          | ',' :: r2 => parseArrElems fuel (v :: acc) (skipWs r2) false
          | ']' :: r2 => some (JVal.jarr (v :: acc).reverse, r2)
          | _ => none

end

/-- Fuel comfortably larger than the number of parser calls any input of
this length can trigger. -/
def jsonFuel (text : String) : Nat := 2 * text.length + 8

/-- Model of `json.loads`: parse one value and reject trailing non-space
data (`json.JSONDecodeError` becomes `none`). -/
def jsonLoads (text : String) : Option JVal :=
  match parseValue (jsonFuel text) text.data with
  | some (v, rest) => if (skipWs rest).isEmpty then some v else none
  | none => none

def findCharIdx (c : Char) : List Char → Option Nat
  | [] => none
  | x :: rest => if x == c then some 0 else (findCharIdx c rest).map (fun n => n + 1)

def lastCharIdx (c : Char) (cs : List Char) : Option Nat :=
  (findCharIdx c cs.reverse).map (fun k => cs.length - 1 - k)

/-- Model of the `re.search` call in `_parse_json_output`: the regex is an
opening brace, a greedy dot-star under `re.DOTALL`, and a closing brace, so
a match — when one exists — spans from the first opening brace that has any
closing brace after it (equivalently, the first opening brace before the
last closing brace) through the last closing brace of the entire text. -/
def extractBraceSpan (text : String) : Option String :=
  let cs := text.data
  match lastCharIdx '\x7d' cs with
  | none => none
  | some j =>
    match findCharIdx '\x7b' cs with
    | some i => if i < j then some (String.mk ((cs.drop i).take (j - i + 1))) else none
    | none => none

def safeCommands : JVal :=
  JVal.jarr [JVal.jstr "STRATEGY:balanced", JVal.jstr "MODE:roam"]

/-- Python `dict.get` / key lookup (`insertKey` keeps keys unique). -/
def lookupKey (k : String) : List (String × JVal) → Option JVal
  | [] => none
  | (k2, v) :: rest => if k2 == k then some v else lookupKey k rest

/-- Python `dict.setdefault(k, v)`: insert only when the key is absent. -/
def setdefaultKey (fields : List (String × JVal)) (k : String) (v : JVal) :
    List (String × JVal) :=
  match lookupKey k fields with
  | some _ => fields
  | none => fields ++ [(k, v)]

/-- The two `setdefault` calls at the end of `_parse_json_output`. -/
def applyDefaults (fields : List (String × JVal)) : List (String × JVal) :=
  setdefaultKey (setdefaultKey fields "commands" safeCommands) "reasoning"
    (JVal.jstr "No reasoning provided")

/-- The value bound to `parsed` in `_parse_json_output` before the
`setdefault` calls: the direct parse, else the parse of the extracted brace
span, else the empty dict. -/
def rawParsed (text : String) : JVal :=
  match jsonLoads text with
  | some v => v
  | none =>
    match extractBraceSpan text with
    | some sub => (jsonLoads sub).getD (JVal.jobj [])
    | none => JVal.jobj []

/-- `_parse_json_output`.  When the parsed value is not a dict, the
`parsed.setdefault` call raises `AttributeError`, modelled as
`Except.error`. -/
def parseJsonOutput (text : String) : Except Unit (List (String × JVal)) :=
  match rawParsed text with
  | JVal.jobj fields => Except.ok (applyDefaults fields)
  | _ => Except.error ()

/-- The `commands` and `reasoning` fields of `RoR2BrainOutput`, holding
whatever values the parsed dict held (Python does not check their types). -/
structure BrainOutputModel where
  commands : JVal
  reasoning : JVal
deriving Repr

/-- What the API call produced as observed by `generate_commands`: an
exception anywhere in the pipeline, or a response text. -/
inductive ApiResult where
  | failure
  | success (responseText : String)

/-- The `except` branch of `generate_commands`. -/
def fallbackOutput : BrainOutputModel :=
  { commands := safeCommands,
    reasoning := JVal.jstr "Error in brain generation — using safe fallback" }

/-- `generate_commands`, with the timing fields dropped: build the output
from the parsed dict via `response_dict.get`, or fall back on any
exception (including the `AttributeError` out of `_parse_json_output`). -/
def generateCommands (r : ApiResult) : BrainOutputModel :=
  match r with
  | ApiResult.failure => fallbackOutput
  | ApiResult.success text =>
    match parseJsonOutput text with
    | Except.ok fields =>
        { commands := (lookupKey "commands" fields).getD (JVal.jarr []),
          reasoning := (lookupKey "reasoning" fields).getD (JVal.jstr "") }
    | Except.error _ => fallbackOutput

/-- The spec's notion of a well-formed provider output: an ordered list of
1 to 5 intent strings. -/
def isIntentList (v : JVal) : Prop :=
  ∃ ss : List String, v = JVal.jarr (ss.map JVal.jstr) ∧ 1 ≤ ss.length ∧ ss.length ≤ 5

/-! ## Helper lemmas about the ledger operations -/

theorem updateFirst_none_iff (p : LedgerEntry → Bool) (f : LedgerEntry → LedgerEntry)
    (L : List LedgerEntry) :
    updateFirst p f L = none ↔ ∀ a ∈ L, p a = false := by
  induction L with
  | nil => simp [updateFirst]
  | cons b rest ih =>
    by_cases hb : p b <;> simp [updateFirst, hb, Option.map_eq_none', ih]

theorem updateFirst_some_ex {p : LedgerEntry → Bool} {f : LedgerEntry → LedgerEntry}
    {L L' : List LedgerEntry} (h : updateFirst p f L = some L') :
    ∃ i a, L[i]? = some a ∧ p a = true ∧ L' = L.set i (f a) := by
  induction L generalizing L' with
  | nil => simp [updateFirst] at h
  | cons b rest ih =>
    rw [updateFirst] at h
    by_cases hb : p b
    · rw [if_pos hb] at h
      injection h with h
      exact ⟨0, b, by simp, hb, h.symm⟩
    · rw [if_neg hb, Option.map_eq_some'] at h
      obtain ⟨l, hl, rfl⟩ := h
      obtain ⟨i, a, hget, hpa, rfl⟩ := ih hl
      exact ⟨i + 1, a, by simpa using hget, hpa, rfl⟩

theorem updateFirst_of_findIdx {p : LedgerEntry → Bool} (f : LedgerEntry → LedgerEntry)
    {L : List LedgerEntry} {i : Nat} (h : L.findIdx? p = some i) :
    ∃ a, L[i]? = some a ∧ p a = true ∧ updateFirst p f L = some (L.set i (f a)) := by
  induction L generalizing i with
  | nil => simp at h
  | cons b rest ih =>
    rw [List.findIdx?_cons] at h
    by_cases hb : p b
    · rw [if_pos hb] at h
      injection h with h
      subst h
      exact ⟨b, by simp, hb, by simp [updateFirst, hb]⟩
    · rw [if_neg hb, List.findIdx?_succ] at h
      obtain ⟨j, hj, rfl⟩ := Option.map_eq_some'.1 h
      obtain ⟨a, hget, hpa, hupd⟩ := ih hj
      exact ⟨a, by simpa using hget, hpa, by simp [updateFirst, hb, hupd]⟩

/-- Setting an index to the value it already holds changes nothing. -/
theorem set_getElem_same {α : Type} {L : List α} {i : Nat} {a : α}
    (h : L[i]? = some a) : L.set i a = L := by
  apply List.ext_getElem?
  intro j
  rw [List.getElem?_set]
  by_cases hij : i = j
  · subst hij
    simp [List.getElem?_eq_some.1 h |>.1, h]
  · simp [hij]

/-- The command/status part of a ledger entry; reason-only rewrites
preserve the key of every entry. -/
def entryKey (a : LedgerEntry) : String × String := (a.command, a.status)

def keyIsPending (c : String) (k : String × String) : Bool :=
  k.1 == c && k.2 == "pending"

theorem countP_isPendingFor_eq_mapKey (c : String) (L : List LedgerEntry) :
    L.countP (isPendingFor c) = (L.map entryKey).countP (keyIsPending c) := by
  rw [List.countP_map]
  rfl

theorem mapKey_set_of_keyEq {L : List LedgerEntry} {i : Nat} {a b : LedgerEntry}
    (h : L[i]? = some a) (hk : entryKey b = entryKey a) :
    (L.set i b).map entryKey = L.map entryKey := by
  rw [List.map_set]
  apply set_getElem_same
  rw [List.getElem?_map, h, Option.map_some', hk]

/-! ## C2: ledger capacity -/

/-- A sequence of `_add_to_ledger` calls, each carrying command, status and
reason. -/
def foldAdd (calls : List (String × String × String)) (L : List LedgerEntry) :
    List LedgerEntry :=
  calls.foldl (fun l t => addToLedger l t.1 t.2.1 t.2.2) L

theorem addToLedger_length_le {L : List LedgerEntry}
    (h : L.length ≤ maxLedgerEntries) (c s r : String) :
    (addToLedger L c s r).length ≤ maxLedgerEntries := by
  simp only [addToLedger]
  split
  · simp only [List.length_tail, List.length_append, List.length_singleton]
    omega
  · rename_i hcond
    simp only [List.length_append, List.length_singleton] at hcond ⊢
    omega

/-- C2.  Starting from any ledger within capacity (in particular the empty
initial one), every sequence of `_add_to_ledger` calls keeps the length at
or below `max_ledger_entries`, and a call on a full ledger drops exactly
the head (the oldest entry, whatever its status) and appends the new one. -/
theorem ledger_capacity (L : List LedgerEntry)
    (calls : List (String × String × String)) (h : L.length ≤ maxLedgerEntries) :
    (foldAdd calls L).length ≤ maxLedgerEntries ∧
    (L.length = maxLedgerEntries → ∀ c s r,
      addToLedger L c s r = L.tail ++ [{ command := c, status := s, reason := r }] ∧
      (addToLedger L c s r).length = maxLedgerEntries) := by
  constructor
  · induction calls generalizing L with
    | nil => exact h
    | cons t rest ih =>
      exact ih _ (addToLedger_length_le h t.1 t.2.1 t.2.2)
  · intro hfull c s r
    have hne : L ≠ [] := by
      intro h0
      rw [h0] at hfull
      simp [maxLedgerEntries] at hfull
    have hcond : maxLedgerEntries <
        (L ++ [({ command := c, status := s, reason := r } : LedgerEntry)]).length := by
      simp [List.length_append, hfull]
    constructor
    · simp only [addToLedger]
      rw [if_pos hcond, List.tail_append_of_ne_nil hne]
    · simp only [addToLedger]
      rw [if_pos hcond]
      simp only [List.length_tail, List.length_append, List.length_singleton]
      omega

/-- Witness for C2 at a concrete full ledger. -/
def fullEntry : LedgerEntry := { command := "MODE:roam", status := "success", reason := "" }

theorem ledger_capacity_witness :
    (foldAdd [("STRATEGY:balanced", "pending", "")]
        (List.replicate 10 fullEntry)).length ≤ maxLedgerEntries ∧
    addToLedger (List.replicate 10 fullEntry) "GOTO:CANCEL" "pending" "r" =
      (List.replicate 10 fullEntry).tail ++
        [{ command := "GOTO:CANCEL", status := "pending", reason := "r" }] :=
  ⟨(ledger_capacity (List.replicate 10 fullEntry) [("STRATEGY:balanced", "pending", "")]
      (by decide)).1,
   ((ledger_capacity (List.replicate 10 fullEntry) [] (by decide)).2
      (by decide) "GOTO:CANCEL" "pending" "r").1⟩

/-! ## C8: disconnected queries fail fast without I/O -/

/-- C8.  When the bridge is not connected, or has no client socket,
`send_query` returns `None` with no socket write and no response-queue
read, and the bridge state is untouched. -/
theorem disconnected_query_no_io (st : BridgeState) (qt : String) (o : QueryOutcome)
    (h : st.connected = false ∨ st.hasClientSocket = false) :
    sendQuery st qt o = (st, none, []) := by
  unfold sendQuery
  rcases h with h | h <;> simp [h]

theorem disconnected_query_no_io_witness :
    sendQuery { connected := false, hasClientSocket := false } "QUERY_INVENTORY"
      (QueryOutcome.response "ok") =
      ({ connected := false, hasClientSocket := false }, none, []) :=
  disconnected_query_no_io _ _ _ (Or.inl rfl)

/-! ## C10: unrecognized events leave the ledger unchanged -/

/-- C10.  An event whose `event_type` is missing (read as `""`), empty, or
not one of the five ledger-mutating names leaves the ledger identical;
in particular `low_health` performs no ledger mutation. -/
theorem unknown_event_frame (e : GameEvent) (L : List LedgerEntry)
    (h : e.event_type ∉ (["action_started", "action_complete", "action_failed",
      "stuck", "combat_entered"] : List String)) :
    processEvent e L = L := by
  simp only [List.mem_cons, List.not_mem_nil, or_false, not_or] at h
  obtain ⟨h1, h2, h3, h4, h5⟩ := h
  unfold processEvent
  by_cases h0 : e.event_type = ""
  · simp [h0]
  · simp [h0, h1, h2, h3, h4, h5]

theorem unknown_event_frame_witness :
    processEvent { event_type := "low_health" }
      [{ command := "FIND_AND_INTERACT:chest", status := "pending", reason := "" }] =
      [{ command := "FIND_AND_INTERACT:chest", status := "pending", reason := "" }] :=
  unknown_event_frame _ _ (by decide)

/-! ## C5: combat interrupts pending target-seeking, sparing the teleporter -/

/-- C5.  On `combat_entered`, the entry at every position becomes
interrupted with reason "combat" exactly when it was pending, target
seeking (`FIND_AND_INTERACT`), and its command does not mention the
teleporter; all other entries — teleporter seeks, other statuses, other
commands — are unchanged, and no entry is added or removed. -/
theorem combat_interrupt (L : List LedgerEntry) (e : GameEvent)
    (he : e.event_type = "combat_entered") (i : Nat) (a : LedgerEntry)
    (h : L[i]? = some a) :
    (processEvent e L).length = L.length ∧
    (processEvent e L)[i]? = some
      (if a.status == "pending" && strStarts a.command "FIND_AND_INTERACT" &&
          !containsTeleporter a.command then
        { a with status := "interrupted", reason := "combat" }
      else a) := by
  have hP : processEvent e L = L.map (fun a =>
      if a.status == "pending" && strStarts a.command "FIND_AND_INTERACT" &&
          !containsTeleporter a.command then
        { a with status := "interrupted", reason := "combat" }
      else a) := by
    simp [processEvent, he]
  rw [hP, List.length_map, List.getElem?_map, h, Option.map_some']
  exact ⟨rfl, rfl⟩

theorem combat_interrupt_witness :
    (processEvent { event_type := "combat_entered" }
      [{ command := "FIND_AND_INTERACT:teleporter", status := "pending", reason := "" },
       { command := "FIND_AND_INTERACT:chest", status := "pending", reason := "" }])[1]? =
      some { command := "FIND_AND_INTERACT:chest", status := "interrupted",
             reason := "combat" } := by
  exact (combat_interrupt
    [{ command := "FIND_AND_INTERACT:teleporter", status := "pending", reason := "" },
     { command := "FIND_AND_INTERACT:chest", status := "pending", reason := "" }]
    { event_type := "combat_entered" } rfl 1 _ rfl).2

/-! ## C6: disappearance inference marks matching entries successful -/

/-- C6.  When the target `(ty, nm)` was seen last cycle but is absent from
the current interactables, every pending or interrupted entry whose command
seeks that target's category becomes a success whose reason says the named
target was opened; every other entry is unchanged, and the remembered
interactable set becomes the current one. -/
theorem disappearance_inference (ty nm : String) (L : List LedgerEntry)
    (cur : List (String × String)) (hcur : pairMem (ty, nm) cur = false)
    (i : Nat) (a : LedgerEntry) (h : L[i]? = some a) :
    (checkActionCompletion
        { lastSeen := [(ty, nm)], prevBossActive := false, ledger := L }
        cur false).ledger[i]? = some
      (if (a.status == "pending" || a.status == "interrupted") &&
          strStarts a.command ("FIND_AND_INTERACT:" ++ ty) then
        { a with status := "success", reason := nm ++ " opened" }
      else a) ∧
    (checkActionCompletion
        { lastSeen := [(ty, nm)], prevBossActive := false, ledger := L }
        cur false).lastSeen = cur := by
  constructor
  · have hled : (checkActionCompletion
        { lastSeen := [(ty, nm)], prevBossActive := false, ledger := L }
        cur false).ledger = markDisappeared ty nm L := by
      simp [checkActionCompletion, hcur]
    rw [hled, markDisappeared, List.getElem?_map, h, Option.map_some']
  · rfl

theorem disappearance_inference_witness :
    (checkActionCompletion
        { lastSeen := [("chest", "Chest_A")], prevBossActive := false,
          ledger := [{ command := "FIND_AND_INTERACT:chest", status := "pending",
                       reason := "" }] }
        [] false).ledger[0]? =
      some { command := "FIND_AND_INTERACT:chest", status := "success",
             reason := "Chest_A opened" } := by
  exact (disappearance_inference "chest" "Chest_A"
    [{ command := "FIND_AND_INTERACT:chest", status := "pending", reason := "" }]
    [] rfl 0 _ rfl).1

/-! ## C7: directive TTL and validity -/

/-- C7.  `_is_directive_valid` returns false exactly when no directive is
set (either field `None`) or the elapsed time reached the ttl; the ttl
installed by `set_user_directive` is 45 for a tactical classification and
600 for a strategic one, so at 46 seconds elapsed a tactical directive is
invalid while a strategic one is still valid. -/
theorem directive_validity :
    (∀ (s : DirectiveState) (now : Rat),
      isDirectiveValid s now = false ↔
        s.user_directive = none ∨ s.directive_timestamp = none ∨
          ∃ t0, s.directive_timestamp = some t0 ∧ s.directive_ttl ≤ now - t0) ∧
    (∀ (d : String) (t : Rat), classifyDirective d = "tactical" →
      (setUserDirective d t).directive_ttl = 45 ∧
        isDirectiveValid (setUserDirective d t) (t + 46) = false) ∧
    (∀ (d : String) (t : Rat), classifyDirective d = "strategic" →
      (setUserDirective d t).directive_ttl = 600 ∧
        isDirectiveValid (setUserDirective d t) (t + 46) = true) := by
  refine ⟨?_, ?_, ?_⟩
  · intro s now
    rcases hd : s.user_directive with _ | d
    · simp [isDirectiveValid, hd]
    · rcases ht : s.directive_timestamp with _ | t0
      · simp [isDirectiveValid, hd, ht]
      · have hv : isDirectiveValid s now = decide (now - t0 < s.directive_ttl) := by
          unfold isDirectiveValid
          rw [hd, ht]
        rw [hv, decide_eq_false_iff_not, not_lt]
        constructor
        · intro hle
          exact Or.inr (Or.inr ⟨t0, rfl, hle⟩)
        · rintro (h | h | ⟨t1, ht1, hle⟩)
          · simp at h
          · simp at h
          · injection ht1 with h
            subst h
            exact hle
  · intro d t hcl
    have httl : (setUserDirective d t).directive_ttl = 45 := by
      simp [setUserDirective, hcl]
    refine ⟨httl, ?_⟩
    simp only [isDirectiveValid, setUserDirective, hcl, if_pos]
    rw [decide_eq_false_iff_not]
    intro hlt
    rw [add_sub_cancel_left] at hlt
    norm_num at hlt
  · intro d t hcl
    have hne : classifyDirective d ≠ "tactical" := by
      rw [hcl]; decide
    have httl : (setUserDirective d t).directive_ttl = 600 := by
      simp [setUserDirective, hne]
    refine ⟨httl, ?_⟩
    simp only [isDirectiveValid, setUserDirective, hne, if_neg]
    rw [decide_eq_true_eq, add_sub_cancel_left]
    norm_num

/-! ## C1: forward-only status transitions -/

theorem processEvent_started (e : GameEvent) (he : e.event_type = "action_started")
    (hc : e.command ≠ "") (L : List LedgerEntry) :
    processEvent e L =
      match updateFirst (isPendingFor e.command)
          (fun a => { a with reason := startedReason e }) L with
      | some l => l
      | none => addToLedger L e.command "pending" (startedReason e) := by
  simp [processEvent, he, hc]


/-- The forward-only transition set of the spec: status unchanged, or
pending → success/failed/interrupted, or interrupted → success/failed. -/
def statusStepOk (s s' : String) : Bool :=
  s' == s ||
    (s == "pending" && (s' == "success" || s' == "failed" || s' == "interrupted")) ||
    (s == "interrupted" && (s' == "success" || s' == "failed"))

/-- What one `_process_event` step may do to the ledger, exactly: either it
rewrites entries in place — the length is unchanged and at every position
the command is preserved and the status moves inside the forward-only set —
or it appends one new entry through `_add_to_ledger` (which, per the C2
characterization of `addToLedger`, evicts the head exactly on overflow and
leaves every surviving entry untouched).  Appending and evicting are not
status changes of existing entries, so in both shapes every ledger entry's
status change respects the forward-only set. -/
def ledgerStepOk (L L' : List LedgerEntry) : Prop :=
  (L'.length = L.length ∧
    ∀ (i : Nat) (a a' : LedgerEntry), L[i]? = some a → L'[i]? = some a' →
      a'.command = a.command ∧ statusStepOk a.status a'.status = true) ∨
  ∃ en : LedgerEntry, L' = addToLedger L en.command en.status en.reason

theorem statusStepOk_refl (s : String) : statusStepOk s s = true := by
  simp [statusStepOk]

theorem ledgerStepOk_same (L : List LedgerEntry) : ledgerStepOk L L := by
  refine Or.inl ⟨rfl, ?_⟩
  intro i a a' h h'
  rw [h] at h'
  injection h' with h'
  subst h'
  exact ⟨rfl, statusStepOk_refl _⟩

theorem addToLedger_stepOk (L : List LedgerEntry) (c s r : String) :
    ledgerStepOk L (addToLedger L c s r) :=
  Or.inr ⟨{ command := c, status := s, reason := r }, rfl⟩

theorem set_stepOk {L : List LedgerEntry} {i : Nat} {b : LedgerEntry}
    (hget : L[i]? = some b) (b' : LedgerEntry)
    (hcmd : b'.command = b.command) (hst : statusStepOk b.status b'.status = true) :
    ledgerStepOk L (L.set i b') := by
  refine Or.inl ⟨List.length_set L i b', ?_⟩
  intro j a a' h h'
  rw [List.getElem?_set] at h'
  by_cases hij : i = j
  · subst hij
    rw [if_pos rfl, if_pos (List.getElem?_eq_some.1 h).1] at h'
    injection h' with h'
    subst h'
    rw [h] at hget
    injection hget with hget
    subst hget
    exact ⟨hcmd, hst⟩
  · rw [if_neg hij, h] at h'
    injection h' with h'
    subst h'
    exact ⟨rfl, statusStepOk_refl _⟩

/-- The event alphabet of C1, amended: a started, completed or failed
event, where a completed event's reported status — copied verbatim into
the entry by the code — lies in the set success/failed/interrupted. -/
def eventOkForC1 (e : GameEvent) : Prop :=
  (e.event_type = "action_started" ∨ e.event_type = "action_complete" ∨
    e.event_type = "action_failed") ∧
  (e.event_type = "action_complete" →
    e.status.getD "success" = "success" ∨ e.status.getD "success" = "failed" ∨
      e.status.getD "success" = "interrupted")

theorem processEvent_stepOk {e : GameEvent} (hok : eventOkForC1 e)
    (L : List LedgerEntry) : ledgerStepOk L (processEvent e L) := by
  obtain ⟨hkind, hstat⟩ := hok
  rcases hkind with hk | hk | hk
  · by_cases hc : e.command = ""
    · have hP : processEvent e L = L := by simp [processEvent, hk, hc]
      rw [hP]
      exact ledgerStepOk_same L
    · rw [processEvent_started e hk hc L]
      rcases hu : updateFirst (isPendingFor e.command)
          (fun a => { a with reason := startedReason e }) L with _ | L1
      · exact addToLedger_stepOk L _ _ _
      · obtain ⟨i, b, hget, hpb, rfl⟩ := updateFirst_some_ex hu
        exact set_stepOk hget _ rfl (statusStepOk_refl _)
  · by_cases hc : e.command = ""
    · have hP : processEvent e L = L := by simp [processEvent, hk, hc]
      rw [hP]
      exact ledgerStepOk_same L
    · have hP : processEvent e L =
          match updateFirst (isOpenFor e.command) (fun a => { a with status := e.status.getD "success", reason := "completed" }) L with
          | some l => l
          | none => L := by
        simp [processEvent, hk, hc]
      rw [hP]
      rcases hu : updateFirst (isOpenFor e.command)
          (fun a => { a with status := e.status.getD "success", reason := "completed" })
          L with _ | L1
      · exact ledgerStepOk_same L
      · obtain ⟨i, b, hget, hpb, rfl⟩ := updateFirst_some_ex hu
        have hbs : b.status = "pending" ∨ b.status = "interrupted" := by
          have := hpb
          simp [isOpenFor] at this
          exact this.2
        have hs' := hstat hk
        have hstep : statusStepOk b.status (e.status.getD "success") = true := by
          rcases hbs with hb | hb <;> rcases hs' with h1 | h1 | h1 <;>
            rw [hb, h1] <;> decide
        exact set_stepOk hget _ rfl hstep
  · by_cases hc : e.command = ""
    · have hP : processEvent e L = L := by simp [processEvent, hk, hc]
      rw [hP]
      exact ledgerStepOk_same L
    · have hP : processEvent e L =
          match updateFirst (isPendingFor e.command) (fun a => { a with status := "failed", reason := e.reason.getD "unknown" }) L with
          | some l => l
          | none => addToLedger L e.command "failed" (e.reason.getD "unknown") := by
        simp [processEvent, hk, hc]
      rw [hP]
      rcases hu : updateFirst (isPendingFor e.command)
          (fun a => { a with status := "failed", reason := e.reason.getD "unknown" })
          L with _ | L1
      · exact addToLedger_stepOk L _ _ _
      · obtain ⟨i, b, hget, hpb, rfl⟩ := updateFirst_some_ex hu
        have hbs : b.status = "pending" := by
          have := hpb
          simp [isPendingFor] at this
          exact this.2
        have hstep : statusStepOk b.status "failed" = true := by
          rw [hbs]
          decide
        exact set_stepOk hget _ rfl hstep

/-- C1 (amended).  Over any interleaving of started/completed/failed events
on one command string — provided every completed event reports one of the
ledger statuses success, failed or interrupted — every single step of the
interleaving (the transition from the ledger reached after any prefix to
the ledger after the next event) satisfies `ledgerStepOk`: it is either an
in-place rewrite in which no entry's command changes and every status
change lies in the forward-only transition set (pending to
success/failed/interrupted; interrupted to success/failed; success and
failed immutable), or an `_add_to_ledger` append, which touches no
existing entry's status. -/
theorem ledger_transitions_forward (c : String) (L : List LedgerEntry)
    (es : List GameEvent) (h : ∀ e ∈ es, eventOkForC1 e ∧ e.command = c)
    (es1 : List GameEvent) (e : GameEvent) (es2 : List GameEvent)
    (hsplit : es = es1 ++ e :: es2) :
    ledgerStepOk (processEvents es1 L) (processEvent e (processEvents es1 L)) := by
  have hmem : e ∈ es := by
    rw [hsplit]
    exact List.mem_append_right es1 (List.mem_cons_self e es2)
  exact processEvent_stepOk (h e hmem).1 (processEvents es1 L)

theorem ledger_transitions_forward_witness :
    ledgerStepOk
      [{ command := "FIND_AND_INTERACT:chest", status := "pending", reason := "" }]
      (processEvent
        { event_type := "action_complete", command := "FIND_AND_INTERACT:chest",
          status := some "success" }
        [{ command := "FIND_AND_INTERACT:chest", status := "pending", reason := "" }]) :=
  ledger_transitions_forward "FIND_AND_INTERACT:chest"
    [{ command := "FIND_AND_INTERACT:chest", status := "pending", reason := "" }]
    [{ event_type := "action_complete", command := "FIND_AND_INTERACT:chest",
       status := some "success" }]
    (by
      intro e he
      simp only [List.mem_singleton] at he
      subst he
      exact ⟨⟨Or.inr (Or.inl rfl), fun _ => Or.inl rfl⟩, rfl⟩)
    []
    { event_type := "action_complete", command := "FIND_AND_INTERACT:chest",
      status := some "success" }
    [] rfl

/-- C1 counterexample: the `action_complete` branch copies the event's
status field verbatim into the entry, so a completed event reporting status
"pending" moves an interrupted entry back to pending — a transition outside
the forward-only set. -/
theorem ledger_transitions_forward_counterexample :
    processEvent
      { event_type := "action_complete", command := "FIND_AND_INTERACT:chest",
        status := some "pending" }
      [{ command := "FIND_AND_INTERACT:chest", status := "interrupted",
         reason := "combat" }] =
      [{ command := "FIND_AND_INTERACT:chest", status := "pending",
         reason := "completed" }] ∧
    statusStepOk "interrupted" "pending" = false :=
  ⟨rfl, rfl⟩

/-! ## C3: repeated start notifications deduplicate -/

theorem countP_eq_of_mapKey {L L' : List LedgerEntry} (c : String)
    (h : L'.map entryKey = L.map entryKey) :
    L'.countP (isPendingFor c) = L.countP (isPendingFor c) := by
  rw [countP_isPendingFor_eq_mapKey, countP_isPendingFor_eq_mapKey, h]

theorem started_refresh_mapKey (e : GameEvent) (he : e.event_type = "action_started")
    (hc : e.command ≠ "") (L : List LedgerEntry)
    (hpos : 0 < L.countP (isPendingFor e.command)) :
    (processEvent e L).map entryKey = L.map entryKey := by
  rw [processEvent_started e he hc L]
  rcases hu : updateFirst (isPendingFor e.command)
      (fun a => { a with reason := startedReason e }) L with _ | L1
  · rw [updateFirst_none_iff] at hu
    obtain ⟨a, haL, hpa⟩ := List.countP_pos_iff.1 hpos
    exact absurd (hu a haL) (by simp [hpa])
  · obtain ⟨i, a, hget, hpa, rfl⟩ := updateFirst_some_ex hu
    exact mapKey_set_of_keyEq hget rfl

/-- C3.  When the ledger holds exactly one pending entry for command `c`,
two `action_started` events for `c` leave exactly one pending entry for
`c` and change no entry's command or status (the refresh touches only the
matched entry's reason, nothing is appended); when no pending entry for
`c` exists, a started event appends a fresh pending entry. -/
theorem started_dedup (L : List LedgerEntry) (c : String) (e1 e2 : GameEvent)
    (hc : c ≠ "")
    (he1 : e1.event_type = "action_started" ∧ e1.command = c)
    (he2 : e2.event_type = "action_started" ∧ e2.command = c) :
    (L.countP (isPendingFor c) = 1 →
      (processEvent e2 (processEvent e1 L)).countP (isPendingFor c) = 1 ∧
      (processEvent e2 (processEvent e1 L)).map entryKey = L.map entryKey) ∧
    (L.countP (isPendingFor c) = 0 →
      processEvent e1 L = addToLedger L c "pending" (startedReason e1)) := by
  constructor
  · intro h1
    have hm1 : (processEvent e1 L).map entryKey = L.map entryKey := by
      apply started_refresh_mapKey e1 he1.1 (he1.2 ▸ hc) L
      rw [he1.2, h1]
      omega
    have hc1 : (processEvent e1 L).countP (isPendingFor c) = 1 := by
      rw [countP_eq_of_mapKey c hm1, h1]
    have hm2 : (processEvent e2 (processEvent e1 L)).map entryKey =
        (processEvent e1 L).map entryKey := by
      apply started_refresh_mapKey e2 he2.1 (he2.2 ▸ hc)
      rw [he2.2, hc1]
      omega
    refine ⟨?_, hm2.trans hm1⟩
    rw [countP_eq_of_mapKey c (hm2.trans hm1), h1]
  · intro h0
    rw [processEvent_started e1 he1.1 (he1.2 ▸ hc) L]
    have hnone : updateFirst (isPendingFor e1.command)
        (fun a => { a with reason := startedReason e1 }) L = none := by
      rw [updateFirst_none_iff]
      intro a ha
      have := List.countP_eq_zero.1 (he1.2 ▸ h0) a ha
      simpa using this
    rw [hnone, he1.2]

theorem started_dedup_witness :
    (processEvent
        { event_type := "action_started", command := "FIND_AND_INTERACT:chest",
          target := some "chest", distance := some "9.5" }
        (processEvent
          { event_type := "action_started", command := "FIND_AND_INTERACT:chest",
            target := some "chest", distance := some "12.0" }
          [{ command := "FIND_AND_INTERACT:chest", status := "pending",
             reason := "" }])).countP (isPendingFor "FIND_AND_INTERACT:chest") = 1 ∧
    (processEvent
        { event_type := "action_started", command := "FIND_AND_INTERACT:chest",
          target := some "chest", distance := some "9.5" }
        (processEvent
          { event_type := "action_started", command := "FIND_AND_INTERACT:chest",
            target := some "chest", distance := some "12.0" }
          [{ command := "FIND_AND_INTERACT:chest", status := "pending",
             reason := "" }])).map entryKey =
      [({ command := "FIND_AND_INTERACT:chest", status := "pending",
          reason := "" } : LedgerEntry)].map entryKey :=
  (started_dedup
    [{ command := "FIND_AND_INTERACT:chest", status := "pending", reason := "" }]
    "FIND_AND_INTERACT:chest"
    { event_type := "action_started", command := "FIND_AND_INTERACT:chest",
      target := some "chest", distance := some "12.0" }
    { event_type := "action_started", command := "FIND_AND_INTERACT:chest",
      target := some "chest", distance := some "9.5" }
    (by decide) ⟨rfl, rfl⟩ ⟨rfl, rfl⟩).1 (by decide)

/-! ## C4: failure marks the oldest pending match or back-fills -/

/-- C4.  An `action_failed` event for a nonempty command `c` with reason
`r` rewrites exactly the first (oldest) pending entry for `c` to
failed/`r`, leaving every other entry untouched; when no pending entry for
`c` exists, it appends a fresh failed entry so the ledger still records
the failure. -/
theorem failed_backfill (L : List LedgerEntry) (c r : String) (e : GameEvent)
    (he : e.event_type = "action_failed" ∧ e.command = c ∧ e.reason = some r)
    (hc : c ≠ "") :
    (∀ i, L.findIdx? (isPendingFor c) = some i →
      ∃ a, L[i]? = some a ∧ a.command = c ∧ a.status = "pending" ∧
        processEvent e L = L.set i { command := c, status := "failed", reason := r }) ∧
    (L.findIdx? (isPendingFor c) = none →
      processEvent e L = addToLedger L c "failed" r) := by
  obtain ⟨ht, hcmd, hres⟩ := he
  have hP : processEvent e L =
      match updateFirst (isPendingFor c)
          (fun a => { a with status := "failed", reason := r }) L with
      | some l => l
      | none => addToLedger L c "failed" r := by
    simp [processEvent, ht, hcmd, hres, hc]
  constructor
  · intro i hidx
    obtain ⟨a, hget, hpa, hupd⟩ := updateFirst_of_findIdx
      (fun a => { a with status := "failed", reason := r }) hidx
    have hpa' : a.command = c ∧ a.status = "pending" := by
      simpa [isPendingFor] using hpa
    refine ⟨a, hget, hpa'.1, hpa'.2, ?_⟩
    rw [hP, hupd]
    dsimp only
    rw [hpa'.1]
  · intro hidx
    have hnone : updateFirst (isPendingFor c)
        (fun a => { a with status := "failed", reason := r }) L = none := by
      rw [updateFirst_none_iff]
      exact List.findIdx?_eq_none_iff.1 hidx
    rw [hP, hnone]

theorem failed_backfill_witness :
    ∃ a, ([{ command := "GOTO:CANCEL", status := "pending", reason := "" }] :
        List LedgerEntry)[0]? = some a ∧
      a.command = "GOTO:CANCEL" ∧ a.status = "pending" ∧
      processEvent
        { event_type := "action_failed", command := "GOTO:CANCEL",
          reason := some "stuck" }
        [{ command := "GOTO:CANCEL", status := "pending", reason := "" }] =
      [({ command := "GOTO:CANCEL", status := "pending", reason := "" } :
          LedgerEntry)].set 0
        { command := "GOTO:CANCEL", status := "failed", reason := "stuck" } :=
  (failed_backfill [{ command := "GOTO:CANCEL", status := "pending", reason := "" }]
    "GOTO:CANCEL" "stuck"
    { event_type := "action_failed", command := "GOTO:CANCEL", reason := some "stuck" }
    ⟨rfl, rfl, rfl⟩ (by decide)).1 0 (by decide)

theorem directive_validity_witness :
    (setUserDirective "open the chest" 0).directive_ttl = 45 ∧
    isDirectiveValid (setUserDirective "open the chest" 0) 46 = false ∧
    (setUserDirective "hold position" 0).directive_ttl = 600 ∧
    isDirectiveValid (setUserDirective "hold position" 0) 46 = true := by
  have h1 := directive_validity.2.1 "open the chest" 0 (by decide)
  have h2 := directive_validity.2.2 "hold position" 0 (by decide)
  rw [show (46 : Rat) = 0 + 46 by norm_num]
  exact ⟨h1.1, h1.2, h2.1, h2.2⟩

/-! ## C9: provider output parsing -/

theorem lookupKey_append (k : String) (l1 l2 : List (String × JVal)) :
    lookupKey k (l1 ++ l2) =
      match lookupKey k l1 with
      | some v => some v
      | none => lookupKey k l2 := by
  induction l1 with
  | nil => rfl
  | cons p rest ih =>
    rcases p with ⟨k2, v2⟩
    by_cases h : (k2 == k) = true
    · simp [lookupKey, h]
    · simp [lookupKey, h, ih]

theorem lookupKey_setdefault_same (l : List (String × JVal)) (k : String) (v : JVal) :
    lookupKey k (setdefaultKey l k v) = some ((lookupKey k l).getD v) := by
  rcases h : lookupKey k l with _ | w <;> simp only [setdefaultKey, h]
  · rw [lookupKey_append, h]
    simp [lookupKey]
  · rfl

theorem lookupKey_setdefault_ne (l : List (String × JVal)) {k k2 : String}
    (hne : k2 ≠ k) (v : JVal) :
    lookupKey k (setdefaultKey l k2 v) = lookupKey k l := by
  rcases h : lookupKey k2 l with _ | w <;> simp only [setdefaultKey, h]
  rw [lookupKey_append]
  rcases h2 : lookupKey k l with _ | w2
  · simp [lookupKey, hne]
  · rfl

theorem lookup_applyDefaults_commands (fields : List (String × JVal)) :
    lookupKey "commands" (applyDefaults fields) =
      some ((lookupKey "commands" fields).getD safeCommands) := by
  unfold applyDefaults
  rw [lookupKey_setdefault_ne _ (by decide), lookupKey_setdefault_same]

theorem lookup_applyDefaults_reasoning (fields : List (String × JVal)) :
    lookupKey "reasoning" (applyDefaults fields) =
      some ((lookupKey "reasoning" fields).getD (JVal.jstr "No reasoning provided")) := by
  unfold applyDefaults
  rw [lookupKey_setdefault_same, lookupKey_setdefault_ne _ (by decide)]

def isJObj : JVal → Bool
  | JVal.jobj _ => true
  | _ => false

/-- C9 (amended).  Output parsing takes the response text's direct JSON
parse, or — when that fails — the parse of the substring spanning the
first opening brace through the last closing brace of the whole text (the
greedy regex match, not the first well-formed object); whenever this
yields a JSON object, the output holds that object's `commands` and
`reasoning` members verbatim — whatever their length or shape — with the
fixed safe pair and default rationale substituted exactly when the member
is absent; on total parse failure both defaults apply; a non-object parse
raises out of `_parse_json_output`, and any failure in the pipeline makes
`generate_commands` return the safe fallback output. -/
theorem parse_output_resilience (text : String) :
    (∀ fields, rawParsed text = JVal.jobj fields →
      parseJsonOutput text = Except.ok (applyDefaults fields) ∧
      lookupKey "commands" (applyDefaults fields) =
        some ((lookupKey "commands" fields).getD safeCommands) ∧
      lookupKey "reasoning" (applyDefaults fields) =
        some ((lookupKey "reasoning" fields).getD (JVal.jstr "No reasoning provided"))) ∧
    (jsonLoads text = none → extractBraceSpan text = none →
      rawParsed text = JVal.jobj []) ∧
    (∀ sub, jsonLoads text = none → extractBraceSpan text = some sub →
      jsonLoads sub = none → rawParsed text = JVal.jobj []) ∧
    (isJObj (rawParsed text) = false →
      parseJsonOutput text = Except.error () ∧
      generateCommands (ApiResult.success text) = fallbackOutput) ∧
    generateCommands ApiResult.failure = fallbackOutput := by
  refine ⟨?_, ?_, ?_, ?_, rfl⟩
  · intro fields hra
    refine ⟨?_, lookup_applyDefaults_commands fields, lookup_applyDefaults_reasoning fields⟩
    unfold parseJsonOutput
    rw [hra]
  · intro h1 h2
    unfold rawParsed
    rw [h1, h2]
  · intro sub h1 h2 h3
    unfold rawParsed
    rw [h1, h2]
    show (jsonLoads sub).getD (JVal.jobj []) = JVal.jobj []
    rw [h3]
    rfl
  · intro hobj
    have hP : parseJsonOutput text = Except.error () := by
      unfold parseJsonOutput
      rcases hv : rawParsed text with _ | b | raw | sv | es | fields
      · rfl
      · rfl
      · rfl
      · rfl
      · rfl
      · rw [hv] at hobj
        simp [isJObj] at hobj
    refine ⟨hP, ?_⟩
    simp only [generateCommands, hP]

theorem parse_output_resilience_witness :
    rawParsed "garbage" = JVal.jobj [] ∧
    parseJsonOutput "garbage" = Except.ok (applyDefaults []) ∧
    lookupKey "commands" (applyDefaults []) = some safeCommands := by
  have h := parse_output_resilience "garbage"
  have hraw : rawParsed "garbage" = JVal.jobj [] := h.2.1 rfl rfl
  have hmain := h.1 [] hraw
  refine ⟨hraw, hmain.1, ?_⟩
  rw [hmain.2.1]
  rfl

/-- C9 counterexample: on the perfectly well-formed response text holding
an empty `commands` array, the parsed output's commands value is the
empty array — zero intent strings rather than 1 to 5 — because the code
never validates the length or shape of the commands member. -/
theorem parse_output_counterexample :
    parseJsonOutput "\x7b\"commands\": [], \"reasoning\": \"r\"\x7d" =
      Except.ok [("commands", JVal.jarr []), ("reasoning", JVal.jstr "r")] ∧
    ¬ isIntentList (JVal.jarr []) := by
  constructor
  · rfl
  · rintro ⟨ss, hss, h1, _⟩
    cases ss with
    | nil => simp at h1
    | cons a tl => simp at hss

end Rainflayer
